import Mathlib

/-!
# base64botdiscord: the code store, the base64 utilities and the command handlers

A shallow embedding of `src/main.js`.

* A JavaScript string is the list of its UTF-16 code units, a `Buffer` the list
  of its bytes.
* `Buffer.from(text)`, `Buffer.from(str, 'base64')`, `buf.toString('utf8')` and
  `buf.toString('base64')` are runtime routines called by `encodeBase64`,
  `decodeBase64` and `isValidBase64`; they are embedded as `utf8Write`,
  `base64Decode`, `utf8Slice` and `base64Encode`.
* The collection behind `CodeModel` is the list of its documents in natural
  order. The driver writes the strings of documents and filters as UTF-8, so
  the collection holds a string as `stored` gives it. A driver call that
  rejects is an explicit boolean of the call, and a rejected call writes
  nothing.
* A handler run is a function from what it meets (the collection, whether the
  store call and `user.send` reject, the clock) to what it leaves (the
  collection, the store calls made, the direct messages delivered, the reply).
  The text of a message is kept as the name of its template with the values
  it interpolates.
-/

namespace Base64Bot

/-! ## Strings and buffers -/

/-- One byte of a `Buffer`. -/
abbrev Byte := Fin 256

/-- One UTF-16 code unit of a JavaScript string. -/
abbrev CodeUnit := Fin 65536

/-- A JavaScript string: its UTF-16 code units. -/
abbrev JSString := List CodeUnit

/-- A `Buffer`: its bytes. -/
abbrev Buffer := List Byte

/-- Store a number in a byte (the low eight bits are kept). -/
def byte (n : Nat) : Byte := ⟨n % 256, Nat.mod_lt _ (by decide)⟩

/-- Store a number in a code unit (the low sixteen bits are kept). -/
def unit16 (n : Nat) : CodeUnit := ⟨n % 65536, Nat.mod_lt _ (by decide)⟩

/-- A string literal as a JavaScript string (UTF-16 code units of its characters). -/
def js (s : String) : JSString :=
  s.toList.flatMap fun c =>
    if c.toNat < 0x10000 then [unit16 c.toNat]
    else [unit16 (0xD800 + (c.toNat - 0x10000) / 0x400),
          unit16 (0xDC00 + (c.toNat - 0x10000) % 0x400)]

/-! ## Base64 (`buf.toString('base64')`, `Buffer.from(str, 'base64')`) -/

/-- The character of a six-bit value in the standard alphabet `A-Z a-z 0-9 + /`. -/
def b64char (v : Nat) : Nat :=
  if v < 26 then 65 + v
  else if v < 52 then 97 + (v - 26)
  else if v < 62 then 48 + (v - 52)
  else if v = 62 then 43
  else 47

/-- The six-bit value of a character; the decoder accepts the standard and the
URL-safe alphabet (`-` for 62, `_` for 63). -/
def unbase64 (c : Nat) : Option Nat :=
  if 65 ≤ c ∧ c ≤ 90 then some (c - 65)
  else if 97 ≤ c ∧ c ≤ 122 then some (c - 97 + 26)
  else if 48 ≤ c ∧ c ≤ 57 then some (c - 48 + 52)
  else if c = 43 ∨ c = 45 then some 62
  else if c = 47 ∨ c = 95 then some 63
  else none

/-- The padding character `=`. -/
def padChar : Nat := 61

/-- `buf.toString('base64')`: standard padded base64 of the bytes. -/
def base64Encode : Buffer → JSString
  | [] => []
  | [a] =>
    [unit16 (b64char (a.val / 4)), unit16 (b64char (a.val % 4 * 16)),
     unit16 padChar, unit16 padChar]
  | [a, b] =>
    [unit16 (b64char (a.val / 4)), unit16 (b64char (a.val % 4 * 16 + b.val / 16)),
     unit16 (b64char (b.val % 16 * 4)), unit16 padChar]
  | a :: b :: c :: rest =>
    unit16 (b64char (a.val / 4)) :: unit16 (b64char (a.val % 4 * 16 + b.val / 16)) ::
    unit16 (b64char (b.val % 16 * 4 + c.val / 64)) :: unit16 (b64char (c.val % 64)) ::
    base64Encode rest

/-- The six-bit values the permissive decoder reads from a string: every code
unit is read through its low byte; a legal character gives its value, `=`
stops the decoding, any other character is skipped. -/
def base64Sextets : JSString → List Nat
  | [] => []
  | u :: rest =>
    match unbase64 (u.val % 256) with
    | some v => v :: base64Sextets rest
    | none => if u.val % 256 = padChar then [] else base64Sextets rest

/-- Bytes of a run of six-bit values: four values give three bytes, a last
group of three gives two bytes, of two gives one byte, a single one is dropped. -/
def sextetsToBytes : List Nat → Buffer
  | [] => []
  | [_] => []
  | [s0, s1] => [byte (s0 * 4 + s1 / 16)]
  | [s0, s1, s2] => [byte (s0 * 4 + s1 / 16), byte (s1 % 16 * 16 + s2 / 4)]
  | s0 :: s1 :: s2 :: s3 :: rest =>
    byte (s0 * 4 + s1 / 16) :: byte (s1 % 16 * 16 + s2 / 4) :: byte (s2 % 4 * 64 + s3) ::
    sextetsToBytes rest

/-- `Buffer.from(str, 'base64')`: permissive decoding, never fails. -/
def base64Decode (str : JSString) : Buffer :=
  sextetsToBytes (base64Sextets str)

/-! ## UTF-8 (`Buffer.from(text)`, `buf.toString('utf8')`) -/

/-- A high (leading) surrogate code unit. -/
def isLead (u : CodeUnit) : Bool := 0xD800 ≤ u.val && u.val ≤ 0xDBFF

/-- A low (trailing) surrogate code unit. -/
def isTrail (u : CodeUnit) : Bool := 0xDC00 ≤ u.val && u.val ≤ 0xDFFF

/-- A surrogate code unit. -/
def isSurrogate (u : CodeUnit) : Bool := 0xD800 ≤ u.val && u.val ≤ 0xDFFF

/-- The UTF-8 bytes of a code point. -/
def utf8Bytes (cp : Nat) : Buffer :=
  if cp < 0x80 then [byte cp]
  else if cp < 0x800 then [byte (0xC0 + cp / 64), byte (0x80 + cp % 64)]
  else if cp < 0x10000 then
    [byte (0xE0 + cp / 4096), byte (0x80 + cp / 64 % 64), byte (0x80 + cp % 64)]
  else
    [byte (0xF0 + cp / 262144), byte (0x80 + cp / 4096 % 64), byte (0x80 + cp / 64 % 64),
     byte (0x80 + cp % 64)]

/-- The bytes written for an unpaired surrogate: U+FFFD in UTF-8. -/
def replacementBytes : Buffer := [byte 0xEF, byte 0xBF, byte 0xBD]

/-- `Buffer.from(text)`: the UTF-8 bytes of a string. A surrogate pair is one
code point; a surrogate without its partner is written as U+FFFD. -/
def utf8Write : JSString → Buffer
  | [] => []
  | [u] => if isSurrogate u then replacementBytes else utf8Bytes u.val
  | u :: v :: rest =>
    if isLead u && isTrail v then
      utf8Bytes (0x10000 + (u.val - 0xD800) * 0x400 + (v.val - 0xDC00)) ++ utf8Write rest
    else if isSurrogate u then replacementBytes ++ utf8Write (v :: rest)
    else utf8Bytes u.val ++ utf8Write (v :: rest)

/-- The code units of a decoded code point. -/
def utf16Units (cp : Nat) : JSString :=
  if cp < 0x10000 then [unit16 cp]
  else [unit16 (0xD800 + (cp - 0x10000) / 0x400), unit16 (0xDC00 + (cp - 0x10000) % 0x400)]

/-- State of the UTF-8 decoder between two bytes: the code point built so far,
the number of continuation bytes still expected, and the range the next
continuation byte has to lie in. -/
structure Utf8State where
  cp : Nat
  needed : Nat
  lower : Nat
  upper : Nat
deriving DecidableEq, Repr

/-- The decoder outside a sequence. -/
def utf8Init : Utf8State := ⟨0, 0, 0x80, 0xBF⟩

/-- The replacement character U+FFFD. -/
def replacementUnit : CodeUnit := unit16 0xFFFD

/-- A byte read outside a sequence. -/
def utf8Lead (b : Nat) : Utf8State × JSString :=
  if b < 0x80 then (utf8Init, [unit16 b])
  else if 0xC2 ≤ b ∧ b ≤ 0xDF then (⟨b % 32, 1, 0x80, 0xBF⟩, [])
  else if 0xE0 ≤ b ∧ b ≤ 0xEF then
    (⟨b % 16, 2, if b = 0xE0 then 0xA0 else 0x80, if b = 0xED then 0x9F else 0xBF⟩, [])
  else if 0xF0 ≤ b ∧ b ≤ 0xF4 then
    (⟨b % 8, 3, if b = 0xF0 then 0x90 else 0x80, if b = 0xF4 then 0x8F else 0xBF⟩, [])
  else (utf8Init, [replacementUnit])

/-- One byte of input: the next state and the code units produced. A byte that
cannot continue the sequence ends it with U+FFFD and is read again as a first
byte. -/
def utf8Step (s : Utf8State) (b : Nat) : Utf8State × JSString :=
  if s.needed = 0 then utf8Lead b
  else if b < s.lower ∨ s.upper < b then
    ((utf8Lead b).1, replacementUnit :: (utf8Lead b).2)
  else if s.needed = 1 then (utf8Init, utf16Units (s.cp * 64 + b % 64))
  else (⟨s.cp * 64 + b % 64, s.needed - 1, 0x80, 0xBF⟩, [])

/-- Decode the bytes from a state; a sequence cut off by the end of the input
gives U+FFFD. -/
def utf8Run : Utf8State → Buffer → JSString
  | s, [] => if s.needed = 0 then [] else [replacementUnit]
  | s, b :: rest => (utf8Step s b.val).2 ++ utf8Run (utf8Step s b.val).1 rest

/-- `buf.toString('utf8')`: the string of the bytes read as UTF-8, with U+FFFD
for every ill-formed sequence. -/
def utf8Slice (bytes : Buffer) : JSString := utf8Run utf8Init bytes

/-! ## The base64 utilities of `main.js` -/

/-- `decodeBase64(base64)`: `Buffer.from(base64, 'base64').toString('utf8')`. -/
def decodeBase64 (base64 : JSString) : JSString :=
  utf8Slice (base64Decode base64)

/-- `encodeBase64(text)`: `Buffer.from(text).toString('base64')`. -/
def encodeBase64 (text : JSString) : JSString :=
  base64Encode (utf8Write text)

/-- `isValidBase64(str)`: decode, encode again, compare with `===`. Decoding a
string does not throw, so the `catch` branch is never taken. -/
def isValidBase64 (str : JSString) : Bool :=
  base64Encode (base64Decode str) == str

/-- A string without unpaired surrogates (`String.prototype.isWellFormed`). -/
def isWellFormed : JSString → Bool
  | [] => true
  | [u] => !isSurrogate u
  | u :: v :: rest =>
    if isLead u && isTrail v then isWellFormed rest
    else !isSurrogate u && isWellFormed (v :: rest)

/-! ## The code store (`codeSchema`, `CodeModel`) -/

/-- A document of the `Code` collection: the fields of `codeSchema`;
`createdAt` is a time in milliseconds. -/
structure CodeDoc where
  userId : JSString
  username : JSString
  name : JSString
  code : JSString
  createdAt : Nat
deriving DecidableEq, Repr

/-- The documents of the collection, in natural order. -/
abbrev Collection := List CodeDoc

/-- A string as the store holds it and gives it back. The driver writes every
string of a document or a filter as UTF-8, so an unpaired surrogate is held as
U+FFFD; a string without unpaired surrogates is held as it is. -/
def stored (s : JSString) : JSString := utf8Slice (utf8Write s)

/-- The filter `{ userId, name }` on a document: the filter's strings, as
written, against the strings held. -/
def matchesKey (userId name : JSString) (d : CodeDoc) : Bool :=
  d.userId == stored userId && d.name == stored name

/-- The filter `{ userId }` on a document. -/
def matchesUser (userId : JSString) (d : CodeDoc) : Bool :=
  d.userId == stored userId

/-- The update `{ userId, username, name, code }` with `upsert: true`: the first
document matching `{ userId, name }` gets the four fields set, as written, and
keeps its other fields; without a match a document is inserted, `createdAt`
taking its default `Date.now`. -/
def upsert (userId username name code : JSString) (now : Nat) : Collection → Collection
  | [] => [⟨stored userId, stored username, stored name, stored code, now⟩]
  | d :: rest =>
    if matchesKey userId name d then
      { d with userId := stored userId, username := stored username, name := stored name,
               code := stored code } :: rest
    else d :: upsert userId username name code now rest

/-- `CodeModel.findOneAndUpdate({ userId, name }, { userId, username, name, code },
{ upsert: true, new: true })`: the collection after the call, or an error when
the driver rejects (nothing is written then). The returned document is not used
by the caller. -/
def findOneAndUpdate (rejects : Bool) (docs : Collection)
    (userId username name code : JSString) (now : Nat) : Except Unit Collection :=
  if rejects then .error () else .ok (upsert userId username name code now docs)

/-- `CodeModel.findOne({ userId, name })`. -/
def findOne (rejects : Bool) (docs : Collection) (userId name : JSString) :
    Except Unit (Option CodeDoc) :=
  if rejects then .error () else .ok (docs.find? (matchesKey userId name))

/-- `CodeModel.find({ userId })`. -/
def find (rejects : Bool) (docs : Collection) (userId : JSString) : Except Unit (List CodeDoc) :=
  if rejects then .error () else .ok (docs.filter (matchesUser userId))

/-- `saveBase64Code(userId, username, name, code)`: the boolean returned and the
collection afterwards. -/
def saveBase64Code (rejects : Bool) (docs : Collection)
    (userId username name code : JSString) (now : Nat) : Bool × Collection :=
  match findOneAndUpdate rejects docs userId username name code now with
  | .ok docs' => (true, docs')
  | .error _ => (false, docs)

/-- `getBase64Code(userId, name)`: `codeDoc ? codeDoc.code : null`, and `null`
when the call throws; `none` is `null`. -/
def getBase64Code (rejects : Bool) (docs : Collection) (userId name : JSString) :
    Option JSString :=
  match findOne rejects docs userId name with
  | .ok (some codeDoc) => some codeDoc.code
  | .ok none => none
  | .error _ => none

/-- `listUserCodes(userId)`: `{ name, createdAt }` of every document of the
user, `[]` when the call throws. -/
def listUserCodes (rejects : Bool) (docs : Collection) (userId : JSString) :
    List (JSString × Nat) :=
  match find rejects docs userId with
  | .ok codes => codes.map fun codeDoc => (codeDoc.name, codeDoc.createdAt)
  | .error _ => []

/-! ## The `interactionCreate` handler -/

/-- A Discord user: `id` and `username`. -/
structure User where
  id : JSString
  username : JSString
deriving DecidableEq, Repr

/-- The command of an interaction with its options: `save` (`nom`, `code`),
`files` (`utilisateur`, optional `nom`), `encode` (`texte`), or a command name
the `switch` has no case for. -/
inductive Command where
  | save (nom code : JSString)
  | files (utilisateur : User) (nom : Option JSString)
  | encode (texte : JSString)
  | unknown
deriving DecidableEq, Repr

/-- An incoming interaction: `interaction.isCommand()`, `interaction.user` and
the command. -/
structure Interaction where
  isCommand : Bool
  user : User
  command : Command
deriving DecidableEq, Repr

/-- The `content` of a reply: which message it is, with the values its
template interpolates. -/
inductive Content where
  | invalidBase64
  | saved (name : JSString)
  | saveError
  | notFound (specificName username : JSString)
  | sentByDM (specificName username : JSString)
  | sendError
  | noCodes (username : JSString)
  | codeList (username : JSString) (entries : List (JSString × Nat))
  | encoded (encoded : JSString)
deriving DecidableEq, Repr

/-- The argument of `interaction.reply`. -/
structure Reply where
  content : Content
  ephemeral : Bool
deriving DecidableEq, Repr

/-- A direct message delivered by `user.send`: the user it goes to, and the
name and decoded text its template interpolates. -/
structure DirectMessage where
  recipient : User
  specificName : JSString
  decodedContent : JSString
deriving DecidableEq, Repr

/-- A call on `CodeModel`. -/
inductive StoreCall where
  | findOneAndUpdate (userId username name code : JSString)
  | findOne (userId name : JSString)
  | find (userId : JSString)
deriving DecidableEq, Repr

/-- What a handler run meets outside the process: the collection, whether the
store call of this run rejects, whether `user.send` rejects, and the clock. -/
structure World where
  docs : Collection
  storeRejects : Bool
  sendRejects : Bool
  now : Nat

/-- What a handler run leaves: the collection, the store calls made, the
direct messages delivered, and the reply (if any). -/
structure Outcome where
  docs : Collection
  storeCalls : List StoreCall
  sent : List DirectMessage
  reply : Option Reply
deriving DecidableEq, Repr

/-- JavaScript truthiness of a string or `null`: a non-empty string. -/
def truthy : Option JSString → Bool
  | some (_ :: _) => true
  | _ => false

/-- The `case 'save'` block. -/
def handleSave (w : World) (user : User) (name code : JSString) : Outcome :=
  if !isValidBase64 code then
    ⟨w.docs, [], [], some ⟨.invalidBase64, true⟩⟩
  else
    let r := saveBase64Code w.storeRejects w.docs user.id user.username name code w.now
    let success := r.1
    if success then
      ⟨r.2, [.findOneAndUpdate user.id user.username name code], [],
        some ⟨.saved name, true⟩⟩
    else
      ⟨r.2, [.findOneAndUpdate user.id user.username name code], [],
        some ⟨.saveError, true⟩⟩

/-- The `case 'files'` block with `specificName` truthy. -/
def handleFilesNamed (w : World) (user targetUser : User) (specificName : JSString) :
    Outcome :=
  let code := getBase64Code w.storeRejects w.docs targetUser.id specificName
  if !truthy code then
    ⟨w.docs, [.findOne targetUser.id specificName], [],
      some ⟨.notFound specificName targetUser.username, true⟩⟩
  else
    let decodedContent := decodeBase64 (code.getD [])
    if w.sendRejects then
      ⟨w.docs, [.findOne targetUser.id specificName], [], some ⟨.sendError, true⟩⟩
    else
      ⟨w.docs, [.findOne targetUser.id specificName], [⟨user, specificName, decodedContent⟩],
        some ⟨.sentByDM specificName targetUser.username, true⟩⟩

/-- The `case 'files'` block without a truthy `specificName`. -/
def handleFilesList (w : World) (targetUser : User) : Outcome :=
  let codesList := listUserCodes w.storeRejects w.docs targetUser.id
  if codesList.length = 0 then
    ⟨w.docs, [.find targetUser.id], [], some ⟨.noCodes targetUser.username, false⟩⟩
  else
    ⟨w.docs, [.find targetUser.id], [], some ⟨.codeList targetUser.username codesList, false⟩⟩

/-- The `interactionCreate` listener. -/
def onInteraction (w : World) (interaction : Interaction) : Outcome :=
  if !interaction.isCommand then ⟨w.docs, [], [], none⟩
  else
    match interaction.command with
    | .save name code => handleSave w interaction.user name code
    | .files targetUser specificName =>
      if truthy specificName then
        handleFilesNamed w interaction.user targetUser (specificName.getD [])
      else handleFilesList w targetUser
    | .encode text => ⟨w.docs, [], [], some ⟨.encoded (encodeBase64 text), false⟩⟩
    | .unknown => ⟨w.docs, [], [], none⟩

/-! ## Predicates of the statements -/

/-- Each `(userId, name)` pair held occurs at most once (the unique index). -/
def UniqueKeys (docs : Collection) : Prop :=
  (docs.map fun d => (d.userId, d.name)).Nodup

/-- The records the filter `{ userId, name }` matches. -/
def recordsFor (docs : Collection) (userId name : JSString) : List CodeDoc :=
  docs.filter (matchesKey userId name)

/-- A character of standard padded base64: `A-Z`, `a-z`, `0-9`, `+`, `/`, or the
padding `=`. -/
def isStandardChar (u : CodeUnit) : Bool :=
  (65 ≤ u.val && u.val ≤ 90) || (97 ≤ u.val && u.val ≤ 122) || (48 ≤ u.val && u.val ≤ 57) ||
    u.val == 43 || u.val == 47 || u.val == 61

/-- The commands answered privately: `save`, and `files` with a name (a `nom`
the handler finds truthy). -/
def answersPrivately : Command → Bool
  | .save _ _ => true
  | .files _ nom => truthy nom
  | .encode _ => false
  | .unknown => false

/-- A user of the examples. -/
def ann : User := ⟨js "1001", js "ann"⟩

/-- Another user of the examples. -/
def bob : User := ⟨js "1002", js "bob"⟩

/-- The record `greeting` of `ann`, holding the base64 of `hello`. -/
def greetingDoc : CodeDoc := ⟨ann.id, ann.username, js "greeting", js "aGVsbG8=", 5⟩

/-- A record `greeting` of `bob`. -/
def bobDoc : CodeDoc := ⟨bob.id, bob.username, js "greeting", js "Yg==", 3⟩

/-- The record `blank` of `ann`, holding the empty payload. -/
def blankDoc : CodeDoc := ⟨ann.id, ann.username, js "blank", [], 7⟩


theorem unbase64_b64char (v : Nat) (h : v < 64) : unbase64 (b64char v) = some v := by
  unfold b64char unbase64
  split_ifs <;> first | omega | (congr 1; omega)

theorem b64char_lt (v : Nat) : b64char v < 128 := by
  unfold b64char
  split_ifs <;> omega

theorem base64Sextets_unit16_b64char (v : Nat) (h : v < 64) (rest : JSString) :
    base64Sextets (unit16 (b64char v) :: rest) = v :: base64Sextets rest := by
  have h1 := b64char_lt v
  have h2 : (unit16 (b64char v)).val % 256 = b64char v := by
    simp only [unit16]; omega
  simp only [base64Sextets, h2, unbase64_b64char v h]

theorem base64Sextets_pad (rest : JSString) :
    base64Sextets (unit16 padChar :: rest) = [] := by
  have h2 : (unit16 padChar).val % 256 = 61 := by decide
  have h3 : unbase64 61 = none := by decide
  simp only [base64Sextets, h2, h3, if_true]
  rfl

theorem byte_val (b : Byte) : byte b.val = b := by
  apply Fin.ext
  have := b.isLt
  simp only [byte]
  omega

theorem byte_eq_of_val (b : Byte) (n : Nat) (h : n = b.val) : byte n = b := by
  subst h
  exact byte_val b

/-- Permissive decoding inverts the encoder on every buffer. -/
theorem base64Decode_base64Encode (bs : Buffer) : base64Decode (base64Encode bs) = bs := by
  induction bs using base64Encode.induct with
  | case1 => rfl
  | case2 a =>
    have ha := a.isLt
    simp only [base64Decode, base64Encode]
    rw [base64Sextets_unit16_b64char _ (by omega), base64Sextets_unit16_b64char _ (by omega),
      base64Sextets_pad]
    simp only [sextetsToBytes]
    rw [byte_eq_of_val a _ (by omega)]
  | case3 a b =>
    have ha := a.isLt
    have hb := b.isLt
    simp only [base64Decode, base64Encode]
    rw [base64Sextets_unit16_b64char _ (by omega), base64Sextets_unit16_b64char _ (by omega),
      base64Sextets_unit16_b64char _ (by omega), base64Sextets_pad]
    simp only [sextetsToBytes]
    rw [byte_eq_of_val a _ (by omega), byte_eq_of_val b _ (by omega)]
  | case4 a b c rest ih =>
    have ha := a.isLt
    have hb := b.isLt
    have hc := c.isLt
    simp only [base64Decode, base64Encode] at ih ⊢
    rw [base64Sextets_unit16_b64char _ (by omega), base64Sextets_unit16_b64char _ (by omega),
      base64Sextets_unit16_b64char _ (by omega), base64Sextets_unit16_b64char _ (by omega)]
    simp only [sextetsToBytes]
    rw [byte_eq_of_val a _ (by omega), byte_eq_of_val b _ (by omega),
      byte_eq_of_val c _ (by omega), ih]

/-! ### UTF-8: reading back what was written -/

theorem byte_val_of_lt (n : Nat) (h : n < 256) : (byte n).val = n := by
  simp only [byte]
  omega

theorem utf8Run_cons (s : Utf8State) (b : Byte) (rest : Buffer) :
    utf8Run s (b :: rest) = (utf8Step s b.val).2 ++ utf8Run (utf8Step s b.val).1 rest := rfl

theorem utf8Step_init (b : Nat) : utf8Step utf8Init b = utf8Lead b := by
  simp [utf8Step, utf8Init]

theorem utf8Step_last (s : Utf8State) (b : Nat) (hn : s.needed = 1)
    (hl : s.lower ≤ b) (hu : b ≤ s.upper) :
    utf8Step s b = (utf8Init, utf16Units (s.cp * 64 + b % 64)) := by
  have h1 : ¬ (b < s.lower ∨ s.upper < b) := by omega
  simp [utf8Step, hn, h1]

theorem utf8Step_more (s : Utf8State) (b : Nat) (hn : 2 ≤ s.needed)
    (hl : s.lower ≤ b) (hu : b ≤ s.upper) :
    utf8Step s b = (⟨s.cp * 64 + b % 64, s.needed - 1, 0x80, 0xBF⟩, []) := by
  have h0 : ¬ s.needed = 0 := by omega
  have h1 : ¬ (b < s.lower ∨ s.upper < b) := by omega
  have h2 : ¬ s.needed = 1 := by omega
  simp [utf8Step, h0, h1, h2]

theorem utf8Lead_one (b : Nat) (h : b < 0x80) : utf8Lead b = (utf8Init, [unit16 b]) := by
  simp [utf8Lead, h]

theorem utf8Lead_two (b : Nat) (h1 : 0xC2 ≤ b) (h2 : b ≤ 0xDF) :
    utf8Lead b = (⟨b % 32, 1, 0x80, 0xBF⟩, []) := by
  have h0 : ¬ b < 0x80 := by omega
  simp [utf8Lead, h0, h1, h2]

theorem utf8Lead_three (b : Nat) (h1 : 0xE0 ≤ b) (h2 : b ≤ 0xEF) :
    utf8Lead b =
      (⟨b % 16, 2, if b = 0xE0 then 0xA0 else 0x80, if b = 0xED then 0x9F else 0xBF⟩, []) := by
  have h0 : ¬ b < 0x80 := by omega
  have h3 : ¬ (0xC2 ≤ b ∧ b ≤ 0xDF) := by omega
  simp [utf8Lead, h0, h1, h2, h3]

theorem utf8Lead_four (b : Nat) (h1 : 0xF0 ≤ b) (h2 : b ≤ 0xF4) :
    utf8Lead b =
      (⟨b % 8, 3, if b = 0xF0 then 0x90 else 0x80, if b = 0xF4 then 0x8F else 0xBF⟩, []) := by
  have h0 : ¬ b < 0x80 := by omega
  have h3 : ¬ (0xC2 ≤ b ∧ b ≤ 0xDF) := by omega
  have h4 : ¬ (0xE0 ≤ b ∧ b ≤ 0xEF) := by omega
  simp [utf8Lead, h0, h1, h2, h3, h4]

/-- The decoder reads the UTF-8 bytes of a scalar value back as its code units. -/
theorem utf8Run_utf8Bytes (cp : Nat) (hmax : cp < 0x110000)
    (hs : ¬ (0xD800 ≤ cp ∧ cp ≤ 0xDFFF)) (rest : Buffer) :
    utf8Run utf8Init (utf8Bytes cp ++ rest) = utf16Units cp ++ utf8Run utf8Init rest := by
  unfold utf8Bytes
  split_ifs with h1 h2 h3
  · simp only [List.cons_append, List.nil_append, utf8Run_cons, utf8Step_init,
      byte_val_of_lt cp (by omega), utf8Lead_one cp h1]
    simp [utf16Units, show cp < 0x10000 by omega]
  · simp only [List.cons_append, List.nil_append, utf8Run_cons, utf8Step_init]
    rw [byte_val_of_lt _ (by omega), utf8Lead_two _ (by omega) (by omega)]
    simp only [List.nil_append]
    rw [byte_val_of_lt _ (by omega), utf8Step_last _ _ rfl (by dsimp only; omega) (by dsimp only; omega)]
    dsimp only
    congr 2
    omega
  · simp only [List.cons_append, List.nil_append, utf8Run_cons, utf8Step_init]
    rw [byte_val_of_lt _ (by omega), utf8Lead_three _ (by omega) (by omega)]
    simp only [List.nil_append]
    rw [byte_val_of_lt _ (by omega),
      utf8Step_more _ _ (by dsimp only; omega) (by dsimp only; split_ifs <;> omega)
        (by dsimp only; split_ifs <;> omega)]
    simp only [List.nil_append]
    rw [byte_val_of_lt _ (by omega),
      utf8Step_last _ _ rfl (by dsimp only; omega) (by dsimp only; omega)]
    dsimp only
    congr 2
    omega
  · simp only [List.cons_append, List.nil_append, utf8Run_cons, utf8Step_init]
    rw [byte_val_of_lt _ (by omega), utf8Lead_four _ (by omega) (by omega)]
    simp only [List.nil_append]
    rw [byte_val_of_lt _ (by omega),
      utf8Step_more _ _ (by dsimp only; omega) (by dsimp only; split_ifs <;> omega)
        (by dsimp only; split_ifs <;> omega)]
    simp only [List.nil_append]
    rw [byte_val_of_lt _ (by omega),
      utf8Step_more _ _ (by dsimp only; omega) (by dsimp only; omega) (by dsimp only; omega)]
    simp only [List.nil_append]
    rw [byte_val_of_lt _ (by omega),
      utf8Step_last _ _ rfl (by dsimp only; omega) (by dsimp only; omega)]
    dsimp only
    congr 2
    omega

theorem unit16_val (u : CodeUnit) : unit16 u.val = u := by
  apply Fin.ext
  have := u.isLt
  simp only [unit16]
  omega

theorem utf16Units_pair (u v : CodeUnit) (hu : isLead u = true) (hv : isTrail v = true) :
    utf16Units (0x10000 + (u.val - 0xD800) * 0x400 + (v.val - 0xDC00)) = [u, v] := by
  simp only [isLead, isTrail, Bool.and_eq_true, decide_eq_true_eq] at hu hv
  have h : ¬ (0x10000 + (u.val - 0xD800) * 0x400 + (v.val - 0xDC00) < 0x10000) := by omega
  simp only [utf16Units, h, if_false]
  have e1 : 0xD800 + (0x10000 + (u.val - 0xD800) * 0x400 + (v.val - 0xDC00) - 0x10000) / 0x400
      = u.val := by omega
  have e2 : 0xDC00 + (0x10000 + (u.val - 0xD800) * 0x400 + (v.val - 0xDC00) - 0x10000) % 0x400
      = v.val := by omega
  rw [e1, e2, unit16_val, unit16_val]

theorem utf16Units_bmp (u : CodeUnit) : utf16Units u.val = [u] := by
  have := u.isLt
  simp only [utf16Units, this, if_true, unit16_val]

/-- Reading the written bytes of a well-formed string gives the string back. -/
theorem utf8Slice_utf8Write (text : JSString) (h : isWellFormed text = true) :
    utf8Slice (utf8Write text) = text := by
  unfold utf8Slice
  induction text using utf8Write.induct with
  | case1 => rfl
  | case2 u hsur =>
    simp [isWellFormed, hsur] at h
  | case3 u hsur =>
    have hu := u.isLt
    simp only [isSurrogate, Bool.and_eq_true, decide_eq_true_eq] at hsur
    simp only [utf8Write, isSurrogate, Bool.and_eq_true, decide_eq_true_eq, hsur, if_false]
    have := utf8Run_utf8Bytes u.val (by omega) hsur []
    rw [List.append_nil] at this
    rw [this, utf16Units_bmp]
    rfl
  | case4 u v rest hpair ih =>
    simp only [isWellFormed, hpair, if_true] at h
    simp only [utf8Write, hpair, if_true]
    simp only [Bool.and_eq_true] at hpair
    have hu := hpair.1
    have hv := hpair.2
    simp only [isLead, isTrail, Bool.and_eq_true, decide_eq_true_eq] at hu hv
    rw [utf8Run_utf8Bytes _ (by omega) (by omega), utf16Units_pair u v hpair.1 hpair.2, ih h]
    rfl
  | case5 u v rest hpair hsur ih =>
    simp [isWellFormed, hpair, hsur] at h
  | case6 u v rest hpair hsur ih =>
    have hu := u.isLt
    simp only [isWellFormed, hpair, hsur, Bool.not_false, Bool.true_and, Bool.false_eq_true,
      if_false] at h
    simp only [utf8Write, hpair, hsur, Bool.false_eq_true, if_false]
    simp only [isSurrogate, Bool.and_eq_true, decide_eq_true_eq] at hsur
    rw [utf8Run_utf8Bytes _ (by omega) hsur, utf16Units_bmp, ih h]
    rfl

/-! ### The store -/

theorem stored_of_isWellFormed (s : JSString) (h : isWellFormed s = true) : stored s = s :=
  utf8Slice_utf8Write s h

theorem matchesKey_iff (userId name : JSString) (d : CodeDoc) :
    matchesKey userId name d = true ↔ d.userId = stored userId ∧ d.name = stored name := by
  simp [matchesKey]

theorem matchesKey_self (userId username name code : JSString) (t : Nat) :
    matchesKey userId name ⟨stored userId, username, stored name, code, t⟩ = true := by
  simp [matchesKey]

theorem map_key_upsert (userId username name code : JSString) (now : Nat) (docs : Collection) :
    (upsert userId username name code now docs).map (fun d => (d.userId, d.name)) =
      if docs.any (matchesKey userId name) then docs.map (fun d => (d.userId, d.name))
      else docs.map (fun d => (d.userId, d.name)) ++ [(stored userId, stored name)] := by
  induction docs with
  | nil => simp [upsert]
  | cons d rest ih =>
    by_cases hd : matchesKey userId name d = true
    · have hk := (matchesKey_iff userId name d).1 hd
      simp [upsert, hd, hk.1, hk.2]
    · simp only [Bool.not_eq_true] at hd
      simp only [upsert, hd, Bool.false_eq_true, if_false, List.map_cons, ih, List.any_cons,
        Bool.false_or]
      split_ifs <;> simp

theorem uniqueKeys_upsert (userId username name code : JSString) (now : Nat) (docs : Collection)
    (h : UniqueKeys docs) : UniqueKeys (upsert userId username name code now docs) := by
  unfold UniqueKeys at h ⊢
  rw [map_key_upsert]
  split_ifs with hany
  · exact h
  · rw [List.nodup_append]
    refine ⟨h, List.nodup_singleton _, ?_⟩
    intro k hk hk1
    rw [List.mem_singleton] at hk1
    subst hk1
    rw [List.mem_map] at hk
    obtain ⟨d, hd, hkey⟩ := hk
    apply hany
    simp only [List.any_eq_true]
    refine ⟨d, hd, ?_⟩
    simp only [Prod.mk.injEq] at hkey
    exact (matchesKey_iff userId name d).2 hkey

theorem find_upsert_same (userId username name code : JSString) (now : Nat) (docs : Collection) :
    ∃ t, (upsert userId username name code now docs).find? (matchesKey userId name) =
      some ⟨stored userId, stored username, stored name, stored code, t⟩ := by
  induction docs with
  | nil => exact ⟨now, by simp only [upsert, List.find?_cons, matchesKey_self]⟩
  | cons d rest ih =>
    by_cases hd : matchesKey userId name d = true
    · exact ⟨d.createdAt, by
        simp only [upsert, hd, if_true, List.find?_cons, matchesKey_self]⟩
    · obtain ⟨t, ht⟩ := ih
      simp only [Bool.not_eq_true] at hd
      exact ⟨t, by simp [upsert, hd, ht]⟩

theorem find_upsert_other (userId username name code : JSString) (now : Nat) (docs : Collection)
    (otherId otherName : JSString)
    (hne : ¬ (stored otherId = stored userId ∧ stored otherName = stored name)) :
    (upsert userId username name code now docs).find? (matchesKey otherId otherName) =
      docs.find? (matchesKey otherId otherName) := by
  have hnew : ∀ (a b : JSString) (t : Nat),
      matchesKey otherId otherName ⟨stored userId, a, stored name, b, t⟩ = false := by
    intro a b t
    rw [← Bool.not_eq_true, matchesKey_iff]
    intro h
    exact hne ⟨h.1.symm, h.2.symm⟩
  induction docs with
  | nil => simp [upsert, hnew]
  | cons d rest ih =>
    by_cases hd : matchesKey userId name d = true
    · have hk := (matchesKey_iff userId name d).1 hd
      have hold : matchesKey otherId otherName d = false := by
        rw [← Bool.not_eq_true, matchesKey_iff]
        intro h
        exact hne ⟨h.1.symm.trans hk.1, h.2.symm.trans hk.2⟩
      simp only [upsert, hd, if_true, List.find?_cons, hold, hnew]
    · simp only [Bool.not_eq_true] at hd
      simp only [upsert, hd, Bool.false_eq_true, if_false, List.find?_cons, ih]

theorem recordsFor_upsert (userId username name code : JSString) (now : Nat) (docs : Collection)
    (h : UniqueKeys docs) :
    ∃ t, recordsFor (upsert userId username name code now docs) userId name =
      [⟨stored userId, stored username, stored name, stored code, t⟩] := by
  induction docs with
  | nil =>
    exact ⟨now, by simp only [recordsFor, upsert, List.filter_cons, matchesKey_self, if_true,
      List.filter_nil]⟩
  | cons d rest ih =>
    have hrest : UniqueKeys rest := by
      unfold UniqueKeys at h ⊢
      exact (List.nodup_cons.1 h).2
    by_cases hd : matchesKey userId name d = true
    · have hk := (matchesKey_iff userId name d).1 hd
      refine ⟨d.createdAt, ?_⟩
      have hnone : rest.filter (matchesKey userId name) = [] := by
        rw [List.filter_eq_nil_iff]
        intro e he hm
        have hke := (matchesKey_iff userId name e).1 hm
        unfold UniqueKeys at h
        apply (List.nodup_cons.1 h).1
        simp only [List.mem_map]
        exact ⟨e, he, by rw [hke.1, hke.2, hk.1, hk.2]⟩
      simp only [recordsFor, upsert, hd, if_true, List.filter_cons, matchesKey_self, hnone]
    · obtain ⟨t, ht⟩ := ih hrest
      simp only [Bool.not_eq_true] at hd
      refine ⟨t, ?_⟩
      simp only [recordsFor] at ht
      simp [recordsFor, upsert, hd, ht]

theorem find_of_recordsFor_nil (docs : Collection) (userId name : JSString)
    (h : recordsFor docs userId name = []) : docs.find? (matchesKey userId name) = none := by
  rw [List.find?_eq_none]
  intro d hd hm
  have : d ∈ recordsFor docs userId name := List.mem_filter.2 ⟨hd, hm⟩
  rw [h] at this
  exact absurd this (List.not_mem_nil d)

theorem find_of_recordsFor_cons (docs : Collection) (userId name : JSString) (d : CodeDoc)
    (more : List CodeDoc) (h : recordsFor docs userId name = d :: more) :
    docs.find? (matchesKey userId name) = some d := by
  induction docs with
  | nil => simp [recordsFor] at h
  | cons e rest ih =>
    by_cases he : matchesKey userId name e = true
    · simp only [recordsFor, List.filter_cons, he, if_true, List.cons.injEq] at h
      rw [← h.1]
      simp only [List.find?_cons, he]
    · simp only [Bool.not_eq_true] at he
      simp only [recordsFor, List.filter_cons, he, Bool.false_eq_true, if_false] at h
      simp only [List.find?_cons, he]
      exact ih h

theorem find_filter_of_imp (p q : CodeDoc → Bool) (docs : Collection)
    (h : ∀ d, p d = true → q d = true) : (docs.filter q).find? p = docs.find? p := by
  induction docs with
  | nil => rfl
  | cons d rest ih =>
    by_cases hq : q d = true
    · simp only [List.filter_cons, hq, if_true, List.find?_cons, ih]
    · have hp : p d = false := by
        rw [← Bool.not_eq_true]
        exact fun hp => hq (h d hp)
      simp only [List.filter_cons, hq, Bool.false_eq_true, if_false, List.find?_cons, hp, ih]

theorem upsert_split (userId username name code : JSString) (now : Nat) (docs : Collection)
    (h : recordsFor docs userId name ≠ []) :
    ∃ pre old post, docs = pre ++ old :: post ∧
      (∀ d ∈ pre, matchesKey userId name d = false) ∧ matchesKey userId name old = true ∧
      upsert userId username name code now docs =
        pre ++ { old with username := stored username, code := stored code } :: post := by
  induction docs with
  | nil => simp [recordsFor] at h
  | cons e rest ih =>
    by_cases he : matchesKey userId name e = true
    · have hk := (matchesKey_iff userId name e).1 he
      refine ⟨[], e, rest, rfl, ?_, he, ?_⟩
      · intro d hd
        exact absurd hd (List.not_mem_nil d)
      · simp only [upsert, he, if_true, List.nil_append, ← hk.1, ← hk.2]
    · simp only [Bool.not_eq_true] at he
      have hrest : recordsFor rest userId name ≠ [] := by
        simpa [recordsFor, List.filter_cons, he] using h
      obtain ⟨pre, old, post, hdocs, hpre, hold, hup⟩ := ih hrest
      refine ⟨e :: pre, old, post, by rw [hdocs]; rfl, ?_, hold, ?_⟩
      · intro d hd
        rcases List.mem_cons.1 hd with hde | hdp
        · rw [hde]; exact he
        · exact hpre d hdp
      · simp only [upsert, he, Bool.false_eq_true, if_false, hup, List.cons_append]

theorem saveBase64Code_ok (docs : Collection) (userId username name code : JSString)
    (now : Nat) :
    saveBase64Code false docs userId username name code now =
      (true, upsert userId username name code now docs) := rfl

theorem saveBase64Code_rejected (docs : Collection) (userId username name code : JSString)
    (now : Nat) :
    saveBase64Code true docs userId username name code now = (false, docs) := rfl

theorem getBase64Code_ok (docs : Collection) (userId name : JSString) :
    getBase64Code false docs userId name =
      (docs.find? (matchesKey userId name)).map (fun d => d.code) := by
  simp only [getBase64Code, findOne, Bool.false_eq_true, if_false]
  cases docs.find? (matchesKey userId name) <;> rfl

theorem getBase64Code_rejected (docs : Collection) (userId name : JSString) :
    getBase64Code true docs userId name = none := rfl

/-! ### The base64 utilities -/

theorem isValidBase64_iff (str : JSString) :
    isValidBase64 str = true ↔ base64Encode (base64Decode str) = str := by
  simp [isValidBase64]

theorem isValidBase64_base64Encode (bytes : Buffer) :
    isValidBase64 (base64Encode bytes) = true := by
  rw [isValidBase64_iff, base64Decode_base64Encode]

theorem isStandardChar_b64char (v : Nat) : isStandardChar (unit16 (b64char v)) = true := by
  have h1 := b64char_lt v
  have h2 : (unit16 (b64char v)).val = b64char v := by
    simp only [unit16]; omega
  simp only [isStandardChar, h2, Bool.or_eq_true, Bool.and_eq_true, decide_eq_true_eq,
    beq_iff_eq]
  unfold b64char
  split_ifs <;> omega

theorem isStandardChar_pad : isStandardChar (unit16 padChar) = true := by decide

theorem isStandardChar_base64Encode (bytes : Buffer) :
    ∀ u ∈ base64Encode bytes, isStandardChar u = true := by
  induction bytes using base64Encode.induct with
  | case1 => simp [base64Encode]
  | case2 a =>
    simp [base64Encode, isStandardChar_b64char, isStandardChar_pad]
  | case3 a b =>
    simp [base64Encode, isStandardChar_b64char, isStandardChar_pad]
  | case4 a b c rest ih =>
    intro u hu
    simp only [base64Encode, List.mem_cons] at hu
    rcases hu with h | h | h | h | h
    · rw [h]; exact isStandardChar_b64char _
    · rw [h]; exact isStandardChar_b64char _
    · rw [h]; exact isStandardChar_b64char _
    · rw [h]; exact isStandardChar_b64char _
    · exact ih u h

theorem length_base64Encode (bytes : Buffer) : (base64Encode bytes).length % 4 = 0 := by
  induction bytes using base64Encode.induct with
  | case1 => rfl
  | case2 a => simp [base64Encode]
  | case3 a b => simp [base64Encode]
  | case4 a b c rest ih =>
    simp only [base64Encode, List.length_cons]
    omega

theorem isWellFormed_of_no_surrogate (s : JSString)
    (h : ∀ u ∈ s, isSurrogate u = false) : isWellFormed s = true := by
  induction s using isWellFormed.induct with
  | case1 => rfl
  | case2 u => simp [isWellFormed, h u (List.mem_singleton.2 rfl)]
  | case3 u v rest hpair ih =>
    have hu := h u (List.mem_cons_self u _)
    simp only [Bool.and_eq_true] at hpair
    have hl := hpair.1
    simp only [isLead, Bool.and_eq_true, decide_eq_true_eq] at hl
    simp only [isSurrogate, Bool.and_eq_false_iff, decide_eq_false_iff_not] at hu
    omega
  | case4 u v rest hpair ih =>
    have hu := h u (List.mem_cons_self u _)
    have hrest : isWellFormed (v :: rest) = true :=
      ih fun w hw => h w (List.mem_cons_of_mem u hw)
    simp only [Bool.not_eq_true] at hpair
    simp only [isWellFormed, hpair, hu, hrest, Bool.false_eq_true, if_false, Bool.not_false,
      Bool.and_self]

theorem isSurrogate_of_isStandardChar (u : CodeUnit) (h : isStandardChar u = true) :
    isSurrogate u = false := by
  simp only [isStandardChar, Bool.or_eq_true, Bool.and_eq_true, decide_eq_true_eq,
    beq_iff_eq] at h
  simp only [isSurrogate, Bool.and_eq_false_iff, decide_eq_false_iff_not]
  omega

theorem isWellFormed_of_isValidBase64 (str : JSString) (h : isValidBase64 str = true) :
    isWellFormed str = true := by
  apply isWellFormed_of_no_surrogate
  intro u hu
  rw [← (isValidBase64_iff str).1 h] at hu
  exact isSurrogate_of_isStandardChar u (isStandardChar_base64Encode _ u hu)

/-! ## The claims -/

/-- C1, counterexample: the string made of the single unpaired surrogate U+D800
is encoded as `77+9` (the bytes of U+FFFD) and decoded as U+FFFD, so the round
trip does not give the string back. -/
theorem decodeBase64_encodeBase64_unpaired_surrogate :
    encodeBase64 [unit16 0xD800] = js "77+9" ∧
    decodeBase64 (encodeBase64 [unit16 0xD800]) = [unit16 0xFFFD] ∧
    decodeBase64 (encodeBase64 [unit16 0xD800]) ≠ [unit16 0xD800] := by
  decide

/-- C1, as amended: for every well-formed text (a string without unpaired
surrogate code units), decoding the encoding gives the text back. -/
theorem decodeBase64_encodeBase64 (text : JSString) (h : isWellFormed text = true) :
    decodeBase64 (encodeBase64 text) = text := by
  unfold decodeBase64 encodeBase64
  rw [base64Decode_base64Encode, utf8Slice_utf8Write text h]

/-- C1, witness: the round trip on a text with one-, two-, three- and four-byte
characters. -/
theorem decodeBase64_encodeBase64_witness :
    isWellFormed (js "hé€😀") = true ∧
    decodeBase64 (encodeBase64 (js "hé€😀")) = js "hé€😀" :=
  ⟨by decide, decodeBase64_encodeBase64 (js "hé€😀") (by decide)⟩

/-- C2: `isValidBase64` is true exactly on the standard padded base64 encodings
of byte sequences, which is the same as: decoding permissively and encoding
again gives the string back. A string with a character outside the alphabet
(padding included), or of a length that is no multiple of four, is rejected;
of the strings that decode to the same bytes at most one is accepted, so every
variant of an accepted string is rejected; so are `not base64 !!`, the unpadded
`YQ`, the URL-safe `-_-_` (standard `+/+/` is accepted) and `YR==`, whose
trailing bits are not zero (`YQ==` is accepted). -/
theorem isValidBase64_iff_canonical :
    (∀ str : JSString, isValidBase64 str = true ↔ ∃ bytes : Buffer, str = base64Encode bytes) ∧
    (∀ str : JSString, isValidBase64 str = true ↔ base64Encode (base64Decode str) = str) ∧
    (∀ str : JSString, ∀ u ∈ str, isStandardChar u = false → isValidBase64 str = false) ∧
    (∀ str : JSString, str.length % 4 ≠ 0 → isValidBase64 str = false) ∧
    (∀ str str' : JSString, isValidBase64 str = true → isValidBase64 str' = true →
      base64Decode str = base64Decode str' → str = str') ∧
    isValidBase64 (js "not base64 !!") = false ∧
    isValidBase64 (js "YQ") = false ∧ isValidBase64 (js "YQ==") = true ∧
    isValidBase64 (js "-_-_") = false ∧ isValidBase64 (js "+/+/") = true ∧
    isValidBase64 (js "YR==") = false := by
  refine ⟨?_, isValidBase64_iff, ?_, ?_, ?_, by decide, by decide, by decide, by decide,
    by decide, by decide⟩
  · intro str
    constructor
    · intro h
      exact ⟨base64Decode str, ((isValidBase64_iff str).1 h).symm⟩
    · rintro ⟨bytes, rfl⟩
      exact isValidBase64_base64Encode bytes
  · intro str u hu hstd
    rw [← Bool.not_eq_true]
    intro hv
    rw [← (isValidBase64_iff str).1 hv] at hu
    rw [isStandardChar_base64Encode _ u hu] at hstd
    exact absurd hstd (by decide)
  · intro str hlen
    rw [← Bool.not_eq_true]
    intro hv
    rw [← (isValidBase64_iff str).1 hv] at hlen
    exact hlen (length_base64Encode _)
  · intro str str' hv hv' hdec
    rw [← (isValidBase64_iff str).1 hv, ← (isValidBase64_iff str').1 hv', hdec]

/-- C2, witness: `not base64 !!` contains a space, which is outside the
alphabet, and is rejected. -/
theorem isValidBase64_iff_canonical_witness :
    unit16 32 ∈ js "not base64 !!" ∧ isStandardChar (unit16 32) = false ∧
    isValidBase64 (js "not base64 !!") = false :=
  ⟨by decide, by decide,
    isValidBase64_iff_canonical.2.2.1 (js "not base64 !!") (unit16 32) (by decide) (by decide)⟩

/-- C3: every output of the encoder passes the validity check. -/
theorem isValidBase64_encodeBase64 (text : JSString) :
    isValidBase64 (encodeBase64 text) = true :=
  isValidBase64_base64Encode (utf8Write text)

/-- C4, counterexample: two saves of `ann` under `greeting`, the second with the
payload made of the unpaired surrogate U+D800, leave one record; it holds
U+FFFD, not the second payload. -/
theorem saveBase64Code_second_payload_unpaired_surrogate :
    recordsFor (saveBase64Code false
        (saveBase64Code false [] ann.id ann.username (js "greeting") (js "YQ==") 8).2
        ann.id ann.username (js "greeting") [unit16 0xD800] 9).2 ann.id (js "greeting") =
      [⟨ann.id, ann.username, js "greeting", [unit16 0xFFFD], 8⟩] ∧
    ([unit16 0xFFFD] : JSString) ≠ [unit16 0xD800] := by
  decide

/-- C4, as amended: on a store in which each `(userId, name)` pair occurs at most
once, a save keeps that (whether the store call succeeds or rejects), and two
saves under the same owner and name that both go through return true and leave
exactly one record for the pair; it holds the second payload and the second
display name as the store writes them, which are the submitted ones whenever
these contain no unpaired surrogate. -/
theorem saveBase64Code_upsert_unique (docs : Collection) (h : UniqueKeys docs)
    (userId name : JSString) :
    (∀ (rejects : Bool) (username code : JSString) (now : Nat),
      UniqueKeys (saveBase64Code rejects docs userId username name code now).2) ∧
    (∀ (username1 code1 username2 code2 : JSString) (now1 now2 : Nat),
      (saveBase64Code false docs userId username1 name code1 now1).1 = true ∧
      (saveBase64Code false (saveBase64Code false docs userId username1 name code1 now1).2
        userId username2 name code2 now2).1 = true ∧
      UniqueKeys (saveBase64Code false
        (saveBase64Code false docs userId username1 name code1 now1).2
        userId username2 name code2 now2).2 ∧
      (∃ t, recordsFor (saveBase64Code false
          (saveBase64Code false docs userId username1 name code1 now1).2
          userId username2 name code2 now2).2 userId name =
        [⟨stored userId, stored username2, stored name, stored code2, t⟩]) ∧
      (isWellFormed username2 = true → isWellFormed code2 = true →
        ∃ t, recordsFor (saveBase64Code false
            (saveBase64Code false docs userId username1 name code1 now1).2
            userId username2 name code2 now2).2 userId name =
          [⟨stored userId, username2, stored name, code2, t⟩])) := by
  constructor
  · intro rejects username code now
    cases rejects
    · rw [saveBase64Code_ok]
      exact uniqueKeys_upsert userId username name code now docs h
    · rw [saveBase64Code_rejected]
      exact h
  · intro username1 code1 username2 code2 now1 now2
    simp only [saveBase64Code_ok, true_and]
    have h1 := uniqueKeys_upsert userId username1 name code1 now1 docs h
    have h2 := recordsFor_upsert userId username2 name code2 now2 _ h1
    refine ⟨uniqueKeys_upsert userId username2 name code2 now2 _ h1, h2, ?_⟩
    intro hu hc
    rw [stored_of_isWellFormed username2 hu, stored_of_isWellFormed code2 hc] at h2
    exact h2

/-- C4, witness: two saves of `ann` under `greeting` on the store holding her
record `greeting`. -/
theorem saveBase64Code_upsert_unique_witness :
    UniqueKeys [greetingDoc] ∧
    ∃ t, recordsFor (saveBase64Code false
        (saveBase64Code false [greetingDoc] ann.id (js "ann") (js "greeting") (js "YQ==") 8).2
        ann.id (js "anna") (js "greeting") (js "Yg==") 9).2 ann.id (js "greeting") =
      [⟨stored ann.id, js "anna", stored (js "greeting"), js "Yg==", t⟩] :=
  ⟨List.nodup_singleton _,
    ((saveBase64Code_upsert_unique [greetingDoc] (List.nodup_singleton _) ann.id
      (js "greeting")).2 (js "ann") (js "YQ==") (js "anna") (js "Yg==") 8 9).2.2.2.2
      (by decide) (by decide)⟩

/-- C5, counterexample: the owners `\uD800` and `\uD801` are distinct strings,
but the store holds both as U+FFFD: after a save under the second one,
`getBase64Code` of the first one returns the payload saved, where it returned
`null` before. -/
theorem getBase64Code_owners_held_alike :
    ([unit16 0xD800] : JSString) ≠ [unit16 0xD801] ∧
    getBase64Code false [] [unit16 0xD800] (js "greeting") = none ∧
    getBase64Code false
      (saveBase64Code false [] [unit16 0xD801] (js "bob") (js "greeting") (js "Yg==") 9).2
      [unit16 0xD800] (js "greeting") = some (js "Yg==") := by
  decide

/-- C5, as amended: with two distinct owners A and B without unpaired surrogates
and a name, what `getBase64Code(A, name)` returns is the payload of a record of
the store whose owner is A, not B; it is the same with all records of B removed
from the store; and a save under `(B, name)` does not change it. -/
theorem getBase64Code_owner_scoped (docs : Collection) (ownerA ownerB name : JSString)
    (hA : isWellFormed ownerA = true) (hB : isWellFormed ownerB = true)
    (hAB : ownerA ≠ ownerB) :
    (∀ (rejects : Bool) (payload : JSString),
      getBase64Code rejects docs ownerA name = some payload →
      ∃ d ∈ docs, d.userId = ownerA ∧ d.userId ≠ ownerB ∧ d.name = stored name ∧
        d.code = payload) ∧
    (∀ rejects : Bool,
      getBase64Code rejects (docs.filter fun d => !matchesUser ownerB d) ownerA name =
        getBase64Code rejects docs ownerA name) ∧
    (∀ (rejectsSave rejectsGet : Bool) (username code : JSString) (now : Nat),
      getBase64Code rejectsGet
        (saveBase64Code rejectsSave docs ownerB username name code now).2 ownerA name =
      getBase64Code rejectsGet docs ownerA name) := by
  have hsA := stored_of_isWellFormed ownerA hA
  have hsB := stored_of_isWellFormed ownerB hB
  refine ⟨?_, ?_, ?_⟩
  · intro rejects payload hget
    cases rejects
    · rw [getBase64Code_ok] at hget
      cases hfind : docs.find? (matchesKey ownerA name) with
      | none => rw [hfind] at hget; exact absurd hget (by simp)
      | some d =>
        rw [hfind] at hget
        simp only [Option.map_some', Option.some.injEq] at hget
        have hm := List.find?_some hfind
        have hk := (matchesKey_iff ownerA name d).1 hm
        rw [hsA] at hk
        exact ⟨d, List.mem_of_find?_eq_some hfind, hk.1, by rw [hk.1]; exact hAB, hk.2, hget⟩
    · rw [getBase64Code_rejected] at hget
      exact absurd hget (by simp)
  · intro rejects
    cases rejects
    · rw [getBase64Code_ok, getBase64Code_ok, find_filter_of_imp]
      intro d hd
      have hk := (matchesKey_iff ownerA name d).1 hd
      simp only [matchesUser, Bool.not_eq_true', beq_eq_false_iff_ne, ne_eq, hk.1, hsA, hsB]
      exact hAB
    · rfl
  · intro rejectsSave rejectsGet username code now
    cases rejectsSave
    · cases rejectsGet
      · rw [saveBase64Code_ok, getBase64Code_ok, getBase64Code_ok, find_upsert_other]
        rw [hsA, hsB]
        exact fun hh => hAB hh.1
      · rfl
    · rfl

/-- C5, witness: `bob` saving under `greeting` does not change what
`getBase64Code(ann, greeting)` returns. -/
theorem getBase64Code_owner_scoped_witness :
    isWellFormed ann.id = true ∧ isWellFormed bob.id = true ∧ ann.id ≠ bob.id ∧
    getBase64Code false
      (saveBase64Code false [greetingDoc] bob.id bob.username (js "greeting") (js "Yg==") 9).2
      ann.id (js "greeting") =
    getBase64Code false [greetingDoc] ann.id (js "greeting") :=
  ⟨by decide, by decide, by decide,
    (getBase64Code_owner_scoped [greetingDoc] ann.id bob.id (js "greeting") (by decide)
      (by decide) (by decide)).2.2 false false bob.username (js "Yg==") 9⟩

/-- C6, counterexample: saving the payload made of the unpaired surrogate U+D800
returns true, and the lookup that follows returns U+FFFD, not the payload. -/
theorem getBase64Code_after_save_unpaired_surrogate :
    (saveBase64Code false [] ann.id ann.username (js "greeting") [unit16 0xD800] 9).1 = true ∧
    getBase64Code false
      (saveBase64Code false [] ann.id ann.username (js "greeting") [unit16 0xD800] 9).2
      ann.id (js "greeting") = some [unit16 0xFFFD] ∧
    getBase64Code false
      (saveBase64Code false [] ann.id ann.username (js "greeting") [unit16 0xD800] 9).2
      ann.id (js "greeting") ≠ some [unit16 0xD800] := by
  decide

/-- C6, as amended: on a store whose calls do not reject, `saveBase64Code` returns
true and a following `getBase64Code` under the same owner and name returns the
payload as the store writes it; that is the payload exactly as submitted when it
contains no unpaired surrogate, so for every payload that passes
`isValidBase64`. After saving the base64 of `hello` as `greeting` the lookup
returns `aGVsbG8=`. -/
theorem getBase64Code_after_saveBase64Code (docs : Collection)
    (userId username name code : JSString) (now : Nat) :
    (saveBase64Code false docs userId username name code now).1 = true ∧
    getBase64Code false (saveBase64Code false docs userId username name code now).2
      userId name = some (stored code) ∧
    (isWellFormed code = true →
      getBase64Code false (saveBase64Code false docs userId username name code now).2
        userId name = some code) ∧
    (isValidBase64 code = true →
      getBase64Code false (saveBase64Code false docs userId username name code now).2
        userId name = some code) ∧
    getBase64Code false
      (saveBase64Code false docs ann.id ann.username (js "greeting")
        (encodeBase64 (js "hello")) now).2 ann.id (js "greeting") = some (js "aGVsbG8=") := by
  have key : ∀ (u d n c : JSString),
      getBase64Code false (saveBase64Code false docs u d n c now).2 u n = some (stored c) := by
    intro u d n c
    rw [saveBase64Code_ok, getBase64Code_ok]
    obtain ⟨t, ht⟩ := find_upsert_same u d n c now docs
    rw [ht]
    rfl
  have exact : isWellFormed code = true →
      getBase64Code false (saveBase64Code false docs userId username name code now).2
        userId name = some code := by
    intro hc
    rw [key, stored_of_isWellFormed code hc]
  refine ⟨rfl, key userId username name code, exact, ?_, ?_⟩
  · intro hv
    exact exact (isWellFormed_of_isValidBase64 code hv)
  · rw [key]
    decide

/-- C6, witness: `ann` saves the base64 of `hello` as `greeting` in a store that
holds a record of `bob`; the lookup returns the payload submitted. -/
theorem getBase64Code_after_saveBase64Code_witness :
    isWellFormed (encodeBase64 (js "hello")) = true ∧
    getBase64Code false
      (saveBase64Code false [bobDoc] ann.id ann.username (js "greeting")
        (encodeBase64 (js "hello")) 9).2 ann.id (js "greeting") =
      some (encodeBase64 (js "hello")) :=
  ⟨by decide,
    (getBase64Code_after_saveBase64Code [bobDoc] ann.id ann.username (js "greeting")
      (encodeBase64 (js "hello")) 9).2.2.1 (by decide)⟩

/-- C7: a `save` command whose code fails `isValidBase64` gets the private
"invalid base64" reply, makes no store call and leaves the store unchanged. -/
theorem save_invalid_is_atomic (w : World) (user : User) (name code : JSString)
    (h : isValidBase64 code = false) :
    onInteraction w ⟨true, user, .save name code⟩ =
      ⟨w.docs, [], [], some ⟨.invalidBase64, true⟩⟩ := by
  simp [onInteraction, handleSave, h]

/-- C7, witness: `save` with the code `not-base64!` on a store holding one record. -/
theorem save_invalid_is_atomic_witness :
    isValidBase64 (js "not-base64!") = false ∧
    onInteraction ⟨[greetingDoc], false, false, 9⟩
        ⟨true, bob, .save (js "x") (js "not-base64!")⟩ =
      ⟨[greetingDoc], [], [], some ⟨.invalidBase64, true⟩⟩ :=
  ⟨by decide,
    save_invalid_is_atomic ⟨[greetingDoc], false, false, 9⟩ bob (js "x") (js "not-base64!")
      (by decide)⟩

/-- C8, counterexample: a record can exist while `files` with its name replies
"not found", or while no delivery is confirmed. (1) `ann` has the record
`greeting`, the store lookup of the run rejects, and `bob` gets the not-found
reply. (2) The lookup succeeds but `user.send` rejects: nothing is sent and the
reply is the generic error. (3) `save` accepts the empty payload (it passes
`isValidBase64`) and stores the record `blank`; `files` with that name then
replies "not found" although the lookup succeeds. -/
theorem files_not_found_though_record_exists :
    (recordsFor [greetingDoc] ann.id (js "greeting") = [greetingDoc] ∧
      onInteraction ⟨[greetingDoc], true, false, 9⟩
          ⟨true, bob, .files ann (some (js "greeting"))⟩ =
        ⟨[greetingDoc], [.findOne ann.id (js "greeting")], [],
          some ⟨.notFound (js "greeting") ann.username, true⟩⟩) ∧
    (onInteraction ⟨[greetingDoc], false, true, 9⟩
          ⟨true, bob, .files ann (some (js "greeting"))⟩ =
        ⟨[greetingDoc], [.findOne ann.id (js "greeting")], [], some ⟨.sendError, true⟩⟩) ∧
    (isValidBase64 [] = true ∧
      onInteraction ⟨[], false, false, 7⟩ ⟨true, ann, .save (js "blank") []⟩ =
        ⟨[blankDoc], [.findOneAndUpdate ann.id ann.username (js "blank") []], [],
          some ⟨.saved (js "blank"), true⟩⟩ ∧
      recordsFor [blankDoc] ann.id (js "blank") = [blankDoc] ∧
      onInteraction ⟨[blankDoc], false, false, 9⟩
          ⟨true, bob, .files ann (some (js "blank"))⟩ =
        ⟨[blankDoc], [.findOne ann.id (js "blank")], [],
          some ⟨.notFound (js "blank") ann.username, true⟩⟩) := by
  decide

/-- C8, as amended: `files` with a non-empty name replies "not found"
(privately) when the store lookup rejects or no record exists for (target user,
name); when the lookup finds a record with a non-empty payload, the handler
decodes it and, if `user.send` succeeds, sends the decoded text as a direct
message to the invoking user (not the target user) and confirms delivery
privately, and if `user.send` rejects sends nothing and replies with the private
generic error. So with a lookup that succeeds and non-empty payloads the reply
is "not found" if and only if no record exists. The store is left unchanged and
only `findOne` is called. -/
theorem files_named_outcome (w : World) (user targetUser : User) (c : CodeUnit)
    (cs : JSString) :
    (w.storeRejects = true →
      onInteraction w ⟨true, user, .files targetUser (some (c :: cs))⟩ =
        ⟨w.docs, [.findOne targetUser.id (c :: cs)], [],
          some ⟨.notFound (c :: cs) targetUser.username, true⟩⟩) ∧
    (w.storeRejects = false → recordsFor w.docs targetUser.id (c :: cs) = [] →
      onInteraction w ⟨true, user, .files targetUser (some (c :: cs))⟩ =
        ⟨w.docs, [.findOne targetUser.id (c :: cs)], [],
          some ⟨.notFound (c :: cs) targetUser.username, true⟩⟩) ∧
    (w.storeRejects = false → ∀ (d : CodeDoc) (more : List CodeDoc),
      recordsFor w.docs targetUser.id (c :: cs) = d :: more → d.code ≠ [] →
      (w.sendRejects = false →
        onInteraction w ⟨true, user, .files targetUser (some (c :: cs))⟩ =
          ⟨w.docs, [.findOne targetUser.id (c :: cs)],
            [⟨user, c :: cs, decodeBase64 d.code⟩],
            some ⟨.sentByDM (c :: cs) targetUser.username, true⟩⟩) ∧
      (w.sendRejects = true →
        onInteraction w ⟨true, user, .files targetUser (some (c :: cs))⟩ =
          ⟨w.docs, [.findOne targetUser.id (c :: cs)], [], some ⟨.sendError, true⟩⟩)) ∧
    (w.storeRejects = false →
      (∀ (d : CodeDoc) (more : List CodeDoc),
        recordsFor w.docs targetUser.id (c :: cs) = d :: more → d.code ≠ []) →
      ((onInteraction w ⟨true, user, .files targetUser (some (c :: cs))⟩).reply =
          some ⟨.notFound (c :: cs) targetUser.username, true⟩ ↔
        recordsFor w.docs targetUser.id (c :: cs) = [])) := by
  have absent : w.storeRejects = false → recordsFor w.docs targetUser.id (c :: cs) = [] →
      onInteraction w ⟨true, user, .files targetUser (some (c :: cs))⟩ =
        ⟨w.docs, [.findOne targetUser.id (c :: cs)], [],
          some ⟨.notFound (c :: cs) targetUser.username, true⟩⟩ := by
    intro hrej hnone
    simp [onInteraction, truthy, handleFilesNamed, hrej, getBase64Code_ok,
      find_of_recordsFor_nil _ _ _ hnone]
  have present : w.storeRejects = false → ∀ (d : CodeDoc) (more : List CodeDoc),
      recordsFor w.docs targetUser.id (c :: cs) = d :: more → d.code ≠ [] →
      (w.sendRejects = false →
        onInteraction w ⟨true, user, .files targetUser (some (c :: cs))⟩ =
          ⟨w.docs, [.findOne targetUser.id (c :: cs)],
            [⟨user, c :: cs, decodeBase64 d.code⟩],
            some ⟨.sentByDM (c :: cs) targetUser.username, true⟩⟩) ∧
      (w.sendRejects = true →
        onInteraction w ⟨true, user, .files targetUser (some (c :: cs))⟩ =
          ⟨w.docs, [.findOne targetUser.id (c :: cs)], [], some ⟨.sendError, true⟩⟩) := by
    intro hrej d more hrec hcode
    have hfind := find_of_recordsFor_cons _ _ _ d more hrec
    obtain ⟨p, ps, hp⟩ := List.exists_cons_of_ne_nil hcode
    constructor
    · intro hsend
      simp [onInteraction, truthy, handleFilesNamed, hrej, hsend, getBase64Code_ok, hfind, hp]
    · intro hsend
      simp [onInteraction, truthy, handleFilesNamed, hrej, hsend, getBase64Code_ok, hfind, hp]
  refine ⟨?_, absent, present, ?_⟩
  · intro hrej
    simp [onInteraction, truthy, handleFilesNamed, hrej, getBase64Code_rejected]
  · intro hrej hcodes
    constructor
    · intro hreply
      cases hrec : recordsFor w.docs targetUser.id (c :: cs) with
      | nil => rfl
      | cons d more =>
        have hout := present hrej d more hrec (hcodes d more hrec)
        cases hsend : w.sendRejects
        · rw [hout.1 hsend] at hreply
          simp at hreply
        · rw [hout.2 hsend] at hreply
          simp at hreply
    · intro hnone
      rw [absent hrej hnone]

/-- C8, witness: `bob` asks for `greeting` of `ann`; the decoded text `hello`
goes to `bob` by direct message and the delivery is confirmed. -/
theorem files_named_outcome_witness :
    onInteraction ⟨[greetingDoc], false, false, 9⟩
        ⟨true, bob, .files ann (some (js "greeting"))⟩ =
      ⟨[greetingDoc], [.findOne ann.id (js "greeting")],
        [⟨bob, js "greeting", js "hello"⟩],
        some ⟨.sentByDM (js "greeting") ann.username, true⟩⟩ :=
  ((files_named_outcome ⟨[greetingDoc], false, false, 9⟩ bob ann (unit16 103)
    (js "reeting")).2.2.1 rfl greetingDoc [] (by decide) (by decide)).1 rfl

/-- C9: every command of the three registered ones gets a reply, and the reply of
a command event is private (ephemeral) exactly when the command is `save`, or
`files` with a name (a `nom` the handler finds truthy, that is non-empty); the
replies of `files` without a name (empty list or not) and of `encode` are
public. -/
theorem reply_visibility (w : World) (interaction : Interaction) :
    (interaction.isCommand = true → interaction.command ≠ .unknown →
      ∃ r, (onInteraction w interaction).reply = some r) ∧
    (∀ r, (onInteraction w interaction).reply = some r →
      (r.ephemeral = true ↔ answersPrivately interaction.command = true)) ∧
    (∀ (user targetUser : User) (r : Reply),
      (onInteraction w ⟨true, user, .files targetUser none⟩).reply = some r →
      r.ephemeral = false) ∧
    (∀ (user : User) (text : JSString),
      (onInteraction w ⟨true, user, .encode text⟩).reply =
        some ⟨.encoded (encodeBase64 text), false⟩) := by
  have main : ∀ (i : Interaction) (r : Reply), (onInteraction w i).reply = some r →
      (r.ephemeral = true ↔ answersPrivately i.command = true) := by
    intro i r hr
    obtain ⟨isCmd, user, cmd⟩ := i
    cases isCmd
    · simp [onInteraction] at hr
    · cases cmd with
      | save name code =>
        simp only [onInteraction, handleSave, Bool.not_true, Bool.false_eq_true, if_false] at hr
        split_ifs at hr <;> simp only [Option.some.injEq] at hr <;> subst hr <;>
          simp [answersPrivately]
      | files targetUser specificName =>
        simp only [onInteraction, handleFilesNamed, handleFilesList, Bool.not_true,
          Bool.false_eq_true, if_false] at hr
        split_ifs at hr with h1 <;> simp only [Option.some.injEq] at hr <;> subst hr <;>
          simp [answersPrivately, h1]
      | encode text =>
        simp only [onInteraction, Bool.not_true, Bool.false_eq_true, if_false,
          Option.some.injEq] at hr
        subst hr
        simp [answersPrivately]
      | unknown => simp [onInteraction] at hr
  refine ⟨?_, main interaction, ?_, ?_⟩
  · intro hcmd hknown
    obtain ⟨isCmd, user, cmd⟩ := interaction
    simp only at hcmd hknown
    subst hcmd
    cases cmd with
    | save name code =>
      simp only [onInteraction, handleSave, Bool.not_true, Bool.false_eq_true, if_false]
      split_ifs <;> exact ⟨_, rfl⟩
    | files targetUser specificName =>
      simp only [onInteraction, handleFilesNamed, handleFilesList, Bool.not_true,
        Bool.false_eq_true, if_false]
      split_ifs <;> exact ⟨_, rfl⟩
    | encode text => exact ⟨_, rfl⟩
    | unknown => exact absurd rfl hknown
  · intro user targetUser r hr
    have := main ⟨true, user, .files targetUser none⟩ r hr
    simp only [answersPrivately, truthy, Bool.false_eq_true, iff_false,
      Bool.not_eq_true] at this
    exact this
  · intro user text
    rfl

/-- C9, witness: the reply to `save` with an invalid code is private. -/
theorem reply_visibility_witness :
    (onInteraction ⟨[], false, false, 0⟩ ⟨true, bob, .save (js "x") (js "?")⟩).reply =
      some ⟨.invalidBase64, true⟩ ∧
    ((⟨.invalidBase64, true⟩ : Reply).ephemeral = true ↔
      answersPrivately (.save (js "x") (js "?")) = true) :=
  ⟨by decide,
    (reply_visibility ⟨[], false, false, 0⟩ ⟨true, bob, .save (js "x") (js "?")⟩).2.1
      ⟨.invalidBase64, true⟩ (by decide)⟩

/-- C10: a save under an `(owner, name)` pair that already has a record replaces
the payload and the owner display name of that record (the first one matching)
by the submitted ones as the store writes them, and nothing else: the record
keeps its `createdAt` and its place, and every other record is unchanged. When
the store call rejects, nothing changes. -/
theorem saveBase64Code_overwrite_frame (docs : Collection)
    (userId username name code : JSString) (now : Nat)
    (h : recordsFor docs userId name ≠ []) :
    (∃ pre old post, docs = pre ++ old :: post ∧
      (∀ d ∈ pre, matchesKey userId name d = false) ∧ matchesKey userId name old = true ∧
      saveBase64Code false docs userId username name code now =
        (true, pre ++ { old with username := stored username, code := stored code } :: post)) ∧
    saveBase64Code true docs userId username name code now = (false, docs) := by
  refine ⟨?_, rfl⟩
  obtain ⟨pre, old, post, hdocs, hpre, hold, hup⟩ :=
    upsert_split userId username name code now docs h
  exact ⟨pre, old, post, hdocs, hpre, hold, by rw [saveBase64Code_ok, hup]⟩

/-- C10, witness: `ann` saves `greeting` again, in a store that holds a record
of `bob` before hers; her record keeps `createdAt = 5` and `bob`'s record is
unchanged. -/
theorem saveBase64Code_overwrite_frame_witness :
    recordsFor [bobDoc, greetingDoc] ann.id (js "greeting") ≠ [] ∧
    saveBase64Code false [bobDoc, greetingDoc] ann.id (js "anna") (js "greeting") (js "Yg==") 9
      = (true, [bobDoc, ⟨ann.id, js "anna", js "greeting", js "Yg==", 5⟩]) ∧
    ∃ pre old post, [bobDoc, greetingDoc] = pre ++ old :: post ∧
      (∀ d ∈ pre, matchesKey ann.id (js "greeting") d = false) ∧
      matchesKey ann.id (js "greeting") old = true ∧
      saveBase64Code false [bobDoc, greetingDoc] ann.id (js "anna") (js "greeting")
          (js "Yg==") 9 =
        (true, pre ++ { old with username := stored (js "anna"),
                                 code := stored (js "Yg==") } :: post) :=
  ⟨by decide, by decide,
    (saveBase64Code_overwrite_frame [bobDoc, greetingDoc] ann.id (js "anna") (js "greeting")
      (js "Yg==") 9 (by decide)).1⟩

end Base64Bot
